import Mathlib

/-
Verification development for the websvr request-processing engine
(src/websvr/websvr.js).  The JavaScript source is shallowly embedded:
strings are Lean strings handled at the character-list level, JS objects
used as string-keyed maps are association lists, asynchronous callbacks
become explicit result values, and the ambient environment (current time,
random ids, the filesystem, the JSON parser, the URL decoder, the template
engine) is passed in as explicit parameters.
-/

set_option autoImplicit false

namespace Websvr

/-! ### JS string primitives (character-list level) -/

/-- charAt-style indexing: some c inside the string, none past the end
(JS charAt returns the empty string there). -/
def charAt? (s : String) (i : Nat) : Option Char :=
  s.data.get? i

/-- Drop the first n characters, as in JS substr(n). -/
def strDrop (s : String) (n : Nat) : String :=
  String.mk (s.data.drop n)

/-- Take the first n characters, as in JS substr(0, n). -/
def strTake (s : String) (n : Nat) : String :=
  String.mk (s.data.take n)

/-- First index at which pat occurs in l, mirroring JS String.indexOf
(none plays the role of -1). -/
def idxOf? (pat : List Char) : List Char → Option Nat
  | [] => if pat = [] then some 0 else none
  | c :: rest =>
    if pat.isPrefixOf (c :: rest) then some 0
    else (idxOf? pat rest).map (· + 1)

/-- JS String.split with a one-character separator: "".split gives [""],
separators at the ends produce empty segments. -/
def splitOnChar (sep : Char) : List Char → List (List Char)
  | [] => [[]]
  | c :: rest =>
    let r := splitOnChar sep rest
    if c = sep then [] :: r
    else
      match r with
      | h :: t => (c :: h) :: t
      | [] => [[c]]

/-- Split a string on the path separator, producing strings. -/
def splitSlash (s : String) : List String :=
  (splitOnChar '/' s.data).map String.mk

/-! ### Association lists standing for JS objects used as maps -/

/-- First-match lookup, as JS property access on our maps. -/
def lookup {α : Type} : List (String × α) → String → Option α
  | [], _ => none
  | (k0, v0) :: rest, k => if k = k0 then some v0 else lookup rest k

/-- Property assignment: replace the first binding of the key, or append. -/
def setKey {α : Type} : List (String × α) → String → α → List (String × α)
  | [], k, v => [(k, v)]
  | (k0, v0) :: rest, k, v =>
    if k = k0 then (k0, v) :: rest else (k0, v0) :: setKey rest k v

/-- JS delete: remove every binding of the key. -/
def eraseKey {α : Type} : List (String × α) → String → List (String × α)
  | [], _ => []
  | (k0, v0) :: rest, k =>
    if k = k0 then eraseKey rest k else (k0, v0) :: eraseKey rest k

/-! ### Pattern matcher (Mapper.prototype.match / matchString / parseUrl) -/

/-- Strip the query string from a request url before segmentation:
the source only strips when the question mark sits at a positive index
(idx > 0 in parseUrl and in fileHandler). -/
def stripQuery (url : String) : String :=
  match idxOf? "?".data url.data with
  | some idx => if 0 < idx then strTake url idx else url
  | none => url

/-- The value captured for one parameter segment: URL-decode the segment
(empty string when the path has no such segment), falling back to the raw
segment value when the decoder throws.  The decoder decodeURIComponent is
a JS builtin, passed in abstractly; none models a thrown URIError.
A value of none in the result models the JS undefined stored by the
fallback when the segment is missing. -/
def captureVal (decode : String → Option String) (param? : Option String) : Option String :=
  match decode (param?.getD "") with
  | some d => some d
  | none => param?

/-- The parameter-collection loop of Mapper.prototype.parseUrl: walk the
expression segments, capture parameter segments (those starting with a
colon), compare literal segments against the aligned path segment, and
fail on the first literal mismatch (a missing aligned segment counts as a
mismatch, because in JS a string never loosely equals undefined). -/
def parseUrlLoop (decode : String → Option String) (urls : List String) (start : Nat) :
    List String → Nat → List (String × Option String) → Option (List (String × Option String))
  | [], _, params => some params
  | part :: rest, i, params =>
    if charAt? part 0 = some ':' then
      parseUrlLoop decode urls start rest (i + 1)
        (setKey params (strDrop part 1) (captureVal decode (urls.get? (i + start))))
    else
      match urls.get? (i + start) with
      | some u => if part = u then parseUrlLoop decode urls start rest (i + 1) params else none
      | none => none

/-- Mapper.prototype.parseUrl: strip the query string, split expression and
path on the separator, align the path with an offset of 1 when the
expression does not start with a separator, and run the segment loop.
Returns none for no match and some params (possibly empty) for a match. -/
def parseUrl (decode : String → Option String) (expression reqUrl0 : String) :
    Option (List (String × Option String)) :=
  let reqUrl := stripQuery reqUrl0
  let parts := splitSlash expression
  let start : Nat := if charAt? expression 0 = some '/' then 0 else 1
  let urls := splitSlash reqUrl
  parseUrlLoop decode urls start parts 0 []

/-- Index of the last expression segment that is a parameter named name;
used to state which capture survives the in-order object assignments. -/
def lastParamIdx (name : String) : List String → Option Nat
  | [] => none
  | part :: rest =>
    match lastParamIdx name rest with
    | some j => some (j + 1)
    | none =>
      if charAt? part 0 = some ':' ∧ strDrop part 1 = name then some 0 else none

/-- A request: the raw url, the accumulated params map (values may be the
JS undefined, modelled as none), and the parsed If-Modified-Since date. -/
structure Request where
  url : String
  params : List (String × Option String)
  ims : Option Int
deriving DecidableEq

def mkReq (url : String) : Request :=
  { url := url, params := [], ims := none }

/-- The value returned by matchString / match: a boolean, or the params
object of a parameterized match.  A params object is truthy even when
empty, which is what keeps "matched with zero parameters" distinguishable
from "no match". -/
inductive MRes where
  | bool (b : Bool)
  | pmap (p : List (String × Option String))
deriving DecidableEq

def MRes.toBool : MRes → Bool
  | .bool b => b
  | .pmap _ => true

/-- _.extend(req.params, params): copy every captured binding onto the
request params, in order, later keys overwriting earlier ones. -/
def extendParams (req : Request) (p : List (String × Option String)) : Request :=
  { req with params := p.foldl (fun acc kv => setKey acc kv.1 kv.2) req.params }

/-- Mapper.prototype.matchString.  An expression without the parameter
marker "/:" is a pure string: in handler (strict) mode it must occur at
index 0 or 1 and be followed by end-of-string, a separator or a query
marker; in filter mode any occurrence matches.  Otherwise parseUrl runs
and a successful params object is merged into the request. -/
def matchStringR (decode : String → Option String) (req : Request) (isHandler : Bool)
    (expression : String) : MRes × Request :=
  let reqUrl := req.url
  if (idxOf? "/:".data expression.data).isNone then
    let idx? := idxOf? expression.data reqUrl.data
    if isHandler then
      match idx? with
      | some idx =>
        if idx = 0 ∨ idx = 1 then
          let lastChar := reqUrl.data.get? (idx + expression.data.length)
          (.bool (lastChar = none ∨ lastChar = some '/' ∨ lastChar = some '?' : Bool), req)
        else (.bool false, req)
      | none => (.bool false, req)
    else (.bool idx?.isSome, req)
  else
    match parseUrl decode expression reqUrl with
    | some p => (.pmap p, extendParams req p)
    | none => (.bool false, req)

/-- A mapper expression: absent (generic filter), a string, a regular
expression (abstracted to its test against the raw url), or a list of
string expressions. -/
inductive Expr where
  | noExpr
  | str (s : String)
  | regex (test : String → Bool)
  | arr (elems : List String)

inductive PostMode where
  | json
  | qs
  | other
deriving DecidableEq

/-- A route rule (Mapper): expression plus the option flags that drive the
parsing pipeline.  The handler itself stays outside the model. -/
structure Mapper where
  expression : Expr
  session : Bool := false
  file : Bool := false
  post : Option PostMode := none

/-- The Array case of Mapper.prototype.match: try each string expression
in order, converting the first truthy matchString result to true. -/
def mapperMatchArr (decode : String → Option String) (isHandler : Bool) :
    List String → Request → MRes × Request
  | [], req => (.bool false, req)
  | e :: rest, req =>
    let p := matchStringR decode req isHandler e
    if p.1.toBool then (.bool true, p.2)
    else mapperMatchArr decode isHandler rest p.2

/-- Mapper.prototype.match: no expression matches unconditionally; a
string goes through matchString; a regular expression tests the raw url;
an array tries its elements in order. -/
def mapperMatch (decode : String → Option String) (m : Mapper) (req : Request)
    (isHandler : Bool) : MRes × Request :=
  match m.expression with
  | .noExpr => (.bool true, req)
  | .str s => matchStringR decode req isHandler s
  | .regex t => (.bool (t req.url), req)
  | .arr es => mapperMatchArr decode isHandler es req

/-- Truthiness of a filter-mode match, as a function of the url alone. -/
def matchB (decode : String → Option String) (m : Mapper) (url : String) : Bool :=
  (mapperMatch decode m (mkReq url) false).1.toBool

/-- Truthiness of a handler-mode (strict) match. -/
def matchH (decode : String → Option String) (m : Mapper) (url : String) : Bool :=
  (mapperMatch decode m (mkReq url) true).1.toBool

/-- A URL decoder that never throws; stands in for decodeURIComponent on
inputs that contain no escape sequences. -/
def decodeId : String → Option String := fun s => some s

/-- The character allowed to follow a strict-mode literal occurrence:
end-of-string, a path separator, or the query marker. -/
def followOk (l : List Char) (n : Nat) : Prop :=
  l.get? n = none ∨ l.get? n = some '/' ∨ l.get? n = some '?'

/-! ### Filter chain (FilterChain.prototype.next) -/

/-- The observable outcome of one next() call: either every remaining
filter was tried without a match and the chain's completion callback runs,
or the first matching rule at absolute index j is handed to the Parser
with the chain positioned at j + 1 (idx was post-incremented), waiting for
a re-entrant next() from that rule's handler. -/
inductive ChainOutcome where
  | complete (req : Request)
  | handle (j : Nat) (req : Request) (nextIdx : Nat)
deriving DecidableEq

/-- The body of next(): fetch the rule at the current index and
post-increment; with no rule left run the completion callback; a
non-matching rule recurses immediately; a matching rule stops the walk. -/
def chainFrom (decode : String → Option String) :
    List Mapper → Nat → Request → ChainOutcome
  | [], _, req => .complete req
  | m :: rest, i, req =>
    let p := mapperMatch decode m req false
    if p.1.toBool then .handle i p.2 (i + 1)
    else chainFrom decode rest (i + 1) p.2

/-- One next() call on a chain positioned at index i over the filter
registry. -/
def chainNext (decode : String → Option String) (filters : List Mapper) (i : Nat)
    (req : Request) : ChainOutcome :=
  chainFrom decode (filters.drop i) i req

/-- Handler.handle: linear scan of the handler registry in strict mode,
returning the first matching index (first match wins), or none. -/
def handlerScan (decode : String → Option String) :
    List Mapper → Nat → Request → Option (Nat × Request)
  | [], _, _ => none
  | m :: rest, i, req =>
    let p := mapperMatch decode m req true
    if p.1.toBool then some (i, p.2)
    else handlerScan decode rest (i + 1) p.2

/-! ### Sessions (SessionParser, MemoryStore) -/

/-- A session object: the reserved __lastAccessTime field (absent on a
brand-new store entry) plus the user key/value pairs. -/
structure Session where
  lastAccessTime : Option Int
  data : List (String × String)
deriving DecidableEq

/-- The {} a MemoryStore lookup miss fabricates. -/
def emptySession : Session := { lastAccessTime := none, data := [] }

/-- The validity test of SessionParser.init: the session object is always
truthy, __lastAccessTime must be truthy (present and nonzero), and the
last access must lie within the configured timeout of the current time. -/
def isValidSession (now timeout : Int) (s : Session) : Bool :=
  match s.lastAccessTime with
  | none => false
  | some t => decide (t ≠ 0) && decide (now - t ≤ timeout)

/-- MemoryStore.get: a miss first inserts a fresh {} under the id and the
callback always receives the entry now present in the map. -/
def MemoryStore.get (store : List (String × Session)) (sid : String) :
    Session × List (String × Session) :=
  match lookup store sid with
  | some s => (s, store)
  | none => (emptySession, setKey store sid emptySession)

/-- MemoryStore.del. -/
def MemoryStore.del (store : List (String × Session)) (sid : String) :
    List (String × Session) :=
  eraseKey store sid

/-- MemoryStore.clearHandler, translated with the source's own
parenthesisation: isValid is lastAccessTime && ((now - lastAccessTime) ||
0 <= sessionTimeout * 2), where the right operand of || is the always-true
comparison.  Entries are deleted exactly when isValid is falsy. -/
def clearHandler (now timeout : Int) (list : List (String × Session)) :
    List (String × Session) :=
  list.filter fun p =>
    match p.2.lastAccessTime with
    | none => false
    | some t => decide (t ≠ 0) && (decide (now - t ≠ 0) || decide ((0 : Int) ≤ timeout * 2))

/-- The configuration surface, with the source's defaults.  notFound is
the "404" option (a custom error template path, empty for none). -/
structure Settings where
  cache : Bool := true
  templateCache : Bool := true
  defaultPage : String := "index.html"
  notFound : String := ""
  sessionTimeout : Int := 1440000
  sessionLength : Nat := 36
deriving DecidableEq

/-- What SessionParser.init leaves behind: the session id and object
attached to the request, the store as mutated, and whether a Set-Cookie
for the fresh id was issued. -/
structure InitResult where
  sid : String
  val : Session
  store : List (String × Session)
  cookieSet : Bool
deriving DecidableEq

/-- The setSession path of init: bind the freshly generated id (newID is
time-and-randomness driven, so the id is a parameter), attach a brand-new
session stamped with the current time, and set the response cookie. -/
def sessionCreate (now : Int) (freshId : String) (store : List (String × Session)) :
    InitResult :=
  { sid := freshId
    val := { lastAccessTime := some now, data := [] }
    store := store
    cookieSet := true }

/-- SessionParser.prototype.init over the memory store: read the _wsid
cookie; a missing, empty or wrong-length value goes to the create path; a
well-formed value is looked up, a valid stored session is attached with
its timestamp refreshed (the refresh also lands in the store, which holds
the same object), and anything else deletes the store entry and falls into
the create path. -/
def sessionInit (st : Settings) (now : Int) (freshId : String)
    (cookies : List (String × String)) (store : List (String × Session)) : InitResult :=
  match lookup cookies "_wsid" with
  | none => sessionCreate now freshId store
  | some sidVal =>
    if sidVal = "" ∨ sidVal.length ≠ st.sessionLength then
      sessionCreate now freshId store
    else
      let g := MemoryStore.get store sidVal
      if isValidSession now st.sessionTimeout g.1 then
        let refreshed := { g.1 with lastAccessTime := some now }
        { sid := sidVal, val := refreshed
          store := setKey g.2 sidVal refreshed, cookieSet := false }
      else
        sessionCreate now freshId (MemoryStore.del g.2 sidVal)

/-! ### Body parsing (Parser.parseBody) -/

/-- The shapes req.body can take after parsing: an object of string-keyed
fields (the shape qs.parse always yields, and the only JSON shape the
claims distinguish - in particular the empty object), a raw string, or
some other decoded JSON document. -/
inductive JVal where
  | obj (fields : List (String × String))
  | str (s : String)
  | otherDoc (raw : String)
deriving DecidableEq

/-- What the body-parse stage leaves behind: the body attached to the
request (none when the stage was skipped) and whether the pipeline went on
to the session stage. -/
structure BodyOutcome where
  attached : Option JVal
  proceeds : Bool
deriving DecidableEq

/-- Parser.parseBody: only a rule with a post mode and no body yet parses;
json mode runs JSON.parse on the data (or on "\x7b\x7d" when empty) and a
thrown parse error is caught into an empty object; qs mode runs the
querystring parser, which never throws; any other truthy post mode leaves
the raw string.  The continuation (parseSession) always runs. -/
def parseBody (jsonParse : String → Option JVal) (qsParse : String → List (String × String))
    (post : Option PostMode) (bodyAttached : Bool) (data : String) : BodyOutcome :=
  if post.isSome && !bodyAttached then
    let body : JVal :=
      match post with
      | some .json =>
        match jsonParse (if data = "" then "\x7b\x7d" else data) with
        | some v => v
        | none => .obj []
      | some .qs => .obj (qsParse data)
      | _ => .str data
    { attached := some body, proceeds := true }
  else { attached := none, proceeds := true }

/-! ### Static files (fileHandler.handlePath) -/

/-- What stat finds at a path. -/
inductive StatKind where
  | file (mtime : Int) (content : String)
  | directory
  | other
deriving DecidableEq

/-- A static-file response: status, body (none for an empty 304 body) and
the Last-Modified header if set. -/
structure StaticResp where
  status : Nat
  body : Option String
  lastModified : Option Int
deriving DecidableEq

/-- The file branch of fileHandler.handlePath: a missing If-Modified-Since
header is read as 1 ms past the epoch; with caching enabled and the file
unmodified since then the response is an empty 304, otherwise the file is
streamed with a 200 and a Last-Modified header. -/
def handlePathFile (cache : Bool) (mtime : Int) (ims : Option Int) (content : String) :
    StaticResp :=
  let cacheTime : Int := match ims with | some t => t | none => 1
  if cache && decide (mtime ≤ cacheTime) then
    { status := 304, body := none, lastModified := none }
  else
    { status := 200, body := some content, lastModified := some mtime }

/-! ### Template cache (Template.getFile / getTemplate / render) -/

/-- The character class of an include-file name, regex [\w\.\\\/]. -/
def isNameChar (c : Char) : Bool :=
  c.isAlphanum || c = '_' || c = '.' || c = '\\' || c = '/'

/-- The 14-character opening of an include directive. -/
def includeHdr : List Char := "<!--#include=\"".data

/-- The 4-character closing of an include directive. -/
def closingMark : List Char := "\"-->".data

/-- Recognize an include directive at the head of the text: the opening
marker, a nonempty run of name characters, and the closing marker.
Returns the included name and the remainder of the text, which is
strictly shorter than the input (packaged for termination). -/
def tryInclude (l : List Char) : Option (String × { r : List Char // r.length < l.length }) :=
  if hp : includeHdr.isPrefixOf l then
    let after := l.drop 14
    let nm := after.takeWhile isNameChar
    if nm.length = 0 then none
    else if closingMark.isPrefixOf (after.drop nm.length) then
      some (String.mk nm,
        ⟨after.drop (nm.length + 4), by
          have h14 : includeHdr.length ≤ l.length :=
            (Iff.mp List.isPrefixOf_iff_prefix hp).length_le
          have hhdr : includeHdr.length = 14 := by decide
          have h1 : after.length = l.length - 14 := by
            simp [after, List.length_drop]
          have h2 : (after.drop (nm.length + 4)).length = after.length - (nm.length + 4) := by
            simp [List.length_drop]
          omega⟩)
    else none
  else none

/-- All include-file names mentioned by a raw template text, scanned left
to right exactly as the global regex replace does; fuel-driven recursion
(the fuel is never exhausted when it starts at the text length). -/
def inclNamesF : Nat → List Char → List String
  | 0, _ => []
  | _ + 1, [] => []
  | fuel + 1, c :: rest =>
    match tryInclude (c :: rest) with
    | some (nm, r) => nm :: inclNamesF fuel r.val
    | none => inclNamesF fuel rest

def inclNames (l : List Char) : List String :=
  inclNamesF l.length l

/-- The include-substitution pass of Template.getTemplate: each directive
is replaced by the cache pool's current content for the included name (the
empty string when absent), and each getFile(includeFile) call that is not
a cache hit schedules an asynchronous read, collected as pending names.
A hit requires the pooled string to be truthy, i.e. nonempty - a cached
empty include is falsy in JS and is read again.  Substitution never sees
the reads it schedules - the cache-priming quirk the source comments on. -/
def scanInclF (templateCache : Bool) (pool : List (String × String)) :
    Nat → List Char → List Char × List String
  | 0, _ => ([], [])
  | _ + 1, [] => ([], [])
  | fuel + 1, c :: rest =>
    match tryInclude (c :: rest) with
    | some (nm, r) =>
      let p := scanInclF templateCache pool fuel r.val
      (((lookup pool nm).getD "").data ++ p.1,
        (if templateCache ∧ ¬ (lookup pool nm).getD "" = "" then [] else [nm]) ++ p.2)
    | none =>
      let p := scanInclF templateCache pool fuel rest
      (c :: p.1, p.2)

def scanIncl (templateCache : Bool) (pool : List (String × String)) (l : List Char) :
    List Char × List String :=
  scanInclF templateCache pool l.length l

/-- Template.getFile: a cache hit - cache enabled and templatePool entry
truthy, which for a string means present and nonempty - answers from the
pool without touching the filesystem; otherwise the file is read (one
read), a successful read is written into the pool, and a read error
degrades to the empty string without populating the pool. -/
def getFile (fs : String → Option String) (templateCache : Bool)
    (pool : List (String × String)) (filename : String) :
    String × List (String × String) × Nat :=
  if templateCache ∧ ¬ (lookup pool filename).getD "" = "" then
    ((lookup pool filename).getD "", pool, 0)
  else
    match fs filename with
    | some tmpl => (tmpl, setKey pool filename tmpl, 1)
    | none => ("", pool, 1)

/-- The asynchronous reads scheduled for the pending include names
complete after the render: each one that finds its file writes the content
into the pool, a failed read changes nothing. -/
def applyPending (fs : String → Option String) :
    List (String × String) → List String → List (String × String)
  | pool, [] => pool
  | pool, n :: rest =>
    applyPending fs
      (match fs n with
       | some c => setKey pool n c
       | none => pool) rest

/-- Template.getTemplate: fetch the raw text, substitute the include
directives against the pool as it stands, and let the scheduled include
reads land in the pool afterwards.  Also counts filesystem reads: the main
fetch plus one per scheduled include read. -/
def getTemplate (fs : String → Option String) (templateCache : Bool)
    (pool : List (String × String)) (filename : String) :
    String × List (String × String) × Nat :=
  let g := getFile fs templateCache pool filename
  let sc := scanIncl templateCache g.2.1 g.1.data
  (String.mk sc.1, applyPending fs g.2.1 sc.2, g.2.2 + sc.2.length)

/-- One render observed from outside: the substituted template text, the
engine output for the (fixed) model, the pool afterwards, and how many
filesystem reads were performed. -/
structure RenderStep where
  tmpl : String
  out : String
  pool : List (String × String)
  reads : Nat
deriving DecidableEq

/-- Template.render for a fixed model: getTemplate then the configured
engine function (abstracted to text-to-output for that model). -/
def stepRender (engineOut : String → String) (fs : String → Option String)
    (templateCache : Bool) (pool : List (String × String)) (name : String) : RenderStep :=
  let t := getTemplate fs templateCache pool name
  { tmpl := t.1, out := engineOut t.1, pool := t.2.1, reads := t.2.2 }

/-! ### Request dispatch (requestHandler, Handler.handle, write404) -/

/-- The body written by self.write404 after the 404 status line: the
rendered custom error template when the "404" setting is nonempty, else
the literal fallback text. -/
def write404body (engineOut : String → String) (fs : String → Option String)
    (templateCache : Bool) (pool : List (String × String)) (notFound : String) : String :=
  if notFound = "" then "File not found!"
  else (stepRender engineOut fs templateCache pool notFound).out

/-- Where one request ends up: consumed by a matching filter, dispatched
to a handler, answered with a ready response, answered by the conditional
static-file logic, or diverted into the directory flow. -/
inductive ReqOutcome where
  | filterRan (j : Nat) (req : Request)
  | handlerRan (j : Nat) (req : Request)
  | served (status : Nat) (body : String)
  | servedFile (r : StaticResp)
  | directoryFlow
deriving DecidableEq

/-- requestHandler composed end to end: run the filter chain from index 0;
on completion try the handlers in strict mode; with no handler match stat
the query-stripped path; a stat error writes the 404 fallback, a file runs
the conditional-GET logic, a directory enters the default-page/listing
flow, anything else also writes the 404 fallback. -/
def handleRequest (decode : String → Option String) (engineOut : String → String)
    (fs : String → Option String) (stat : String → Option StatKind)
    (st : Settings) (pool : List (String × String))
    (filters handlers : List Mapper) (req : Request) : ReqOutcome :=
  match chainNext decode filters 0 req with
  | .handle j req' _ => .filterRan j req'
  | .complete req' =>
    match handlerScan decode handlers 0 req' with
    | some (j, req'') => .handlerRan j req''
    | none =>
      match stat (stripQuery req'.url) with
      | none => .served 404 (write404body engineOut fs st.templateCache pool st.notFound)
      | some (.file mtime content) =>
        .servedFile (handlePathFile st.cache mtime req'.ims content)
      | some .directory => .directoryFlow
      | some .other =>
        .served 404 (write404body engineOut fs st.templateCache pool st.notFound)

/-- Concrete two-file filesystem used to exercise the template cache: a
page that includes i, and the include file itself. -/
def fs0 : String → Option String :=
  fun n =>
    if n = "t" then some "A<!--#include=\"i\"-->B"
    else if n = "i" then some "X" else none

/-! ## Association-list lemmas -/

theorem lookup_setKey {α : Type} (l : List (String × α)) (k k' : String) (v : α) :
    lookup (setKey l k v) k' = if k' = k then some v else lookup l k' := by
  induction l with
  | nil =>
    by_cases h : k' = k <;> simp [setKey, lookup, h]
  | cons p rest ih =>
    obtain ⟨k0, v0⟩ := p
    by_cases h0 : k = k0
    · subst h0
      by_cases h : k' = k <;> simp [setKey, lookup, h]
    · simp only [setKey, if_neg h0]
      by_cases h : k' = k0
      · subst h
        have hne : ¬ k' = k := fun he => h0 he.symm
        simp [lookup, hne]
      · simp [lookup, h, ih]

theorem lookup_eraseKey {α : Type} (l : List (String × α)) (k k' : String) :
    lookup (eraseKey l k) k' = if k' = k then none else lookup l k' := by
  induction l with
  | nil =>
    by_cases h : k' = k <;> simp [eraseKey, lookup, h]
  | cons p rest ih =>
    obtain ⟨k0, v0⟩ := p
    by_cases h0 : k = k0
    · subst h0
      have he : eraseKey ((k, v0) :: rest) k = eraseKey rest k := by simp [eraseKey]
      rw [he, ih]
      by_cases h : k' = k <;> simp [lookup, h]
    · simp only [eraseKey, if_neg h0]
      by_cases h : k' = k0
      · subst h
        have hne : ¬ k' = k := fun he => h0 he.symm
        simp [lookup, hne]
      · simp [lookup, h, ih]

/-! ## Substring-search lemmas -/

theorem idxOf?_sound (pat : List Char) :
    ∀ (l : List Char) (i : Nat), idxOf? pat l = some i →
      pat.isPrefixOf (l.drop i) = true := by
  intro l
  induction l with
  | nil =>
    intro i h
    by_cases hp : pat = []
    · subst hp
      simp [idxOf?] at h
      subst h
      rfl
    · simp [idxOf?, hp] at h
  | cons c rest ih =>
    intro i h
    by_cases hpre : pat.isPrefixOf (c :: rest) = true
    · simp [idxOf?, hpre] at h
      subst h
      exact hpre
    · simp only [idxOf?, Bool.not_eq_true] at hpre
      simp [idxOf?, hpre, Option.map_eq_some'] at h
      obtain ⟨i0, h0, hi⟩ := h
      subst hi
      simpa using ih i0 h0

/-! ## Match truthiness depends only on the url -/

theorem matchStringR_url (d : String → Option String) (req : Request) (hm : Bool)
    (e : String) : (matchStringR d req hm e).2.url = req.url := by
  unfold matchStringR
  by_cases h1 : (idxOf? "/:".data e.data).isNone = true
  · rw [if_pos h1]
    split
    · cases hidx : idxOf? e.data req.url.data
      · simp [hidx]
      · simp only [hidx]
        split
        · rfl
        · rfl
    · rfl
  · rw [if_neg h1]
    cases hp : parseUrl d e req.url <;> simp [hp, extendParams]

theorem matchStringR_fst (d : String → Option String) (req : Request) (hm : Bool)
    (e : String) : (matchStringR d req hm e).1 = (matchStringR d (mkReq req.url) hm e).1 := by
  unfold matchStringR
  simp only [mkReq]
  by_cases h1 : (idxOf? "/:".data e.data).isNone = true
  · rw [if_pos h1, if_pos h1]
    split
    · cases hidx : idxOf? e.data req.url.data
      · simp [hidx]
      · simp only [hidx]
        split
        · rfl
        · rfl
    · rfl
  · rw [if_neg h1, if_neg h1]
    cases hp : parseUrl d e req.url <;> simp [hp]

theorem matchStringR_snd_of_false (d : String → Option String) (req : Request) (hm : Bool)
    (e : String) (hf : (matchStringR d req hm e).1.toBool = false) :
    (matchStringR d req hm e).2 = req := by
  unfold matchStringR at hf ⊢
  by_cases h1 : (idxOf? "/:".data e.data).isNone = true
  · rw [if_pos h1]
    split
    · cases hidx : idxOf? e.data req.url.data
      · simp [hidx]
      · simp only [hidx]
        split
        · rfl
        · rfl
    · rfl
  · rw [if_neg h1]
    rw [if_neg h1] at hf
    cases hp : parseUrl d e req.url
    · simp [hp]
    · rw [hp] at hf
      simp [MRes.toBool] at hf

theorem mapperMatchArr_fst (d : String → Option String) (h : Bool) (es : List String) :
    ∀ req : Request, (mapperMatchArr d h es req).1 = (mapperMatchArr d h es (mkReq req.url)).1 := by
  induction es with
  | nil => intro req; rfl
  | cons e rest ih =>
    intro req
    have h1 : (matchStringR d req h e).1 = (matchStringR d (mkReq req.url) h e).1 :=
      matchStringR_fst d req h e
    simp only [mapperMatchArr]
    rw [← h1]
    by_cases hb : (matchStringR d req h e).1.toBool = true
    · simp [hb]
    · simp only [Bool.not_eq_true] at hb
      simp only [hb, if_neg (by simp [hb] : ¬ (matchStringR d req h e).1.toBool = true)]
      have e2 : (matchStringR d req h e).2.url = req.url := matchStringR_url d req h e
      have e3 : (matchStringR d (mkReq req.url) h e).2.url = req.url := by
        rw [matchStringR_url]
        rfl
      calc (mapperMatchArr d h rest (matchStringR d req h e).2).1
          = (mapperMatchArr d h rest (mkReq (matchStringR d req h e).2.url)).1 := ih _
        _ = (mapperMatchArr d h rest (mkReq (matchStringR d (mkReq req.url) h e).2.url)).1 := by
            rw [e2, e3]
        _ = (mapperMatchArr d h rest (matchStringR d (mkReq req.url) h e).2).1 := (ih _).symm

theorem mapperMatchArr_snd_of_false (d : String → Option String) (h : Bool)
    (es : List String) :
    ∀ req : Request, (mapperMatchArr d h es req).1.toBool = false →
      (mapperMatchArr d h es req).2 = req := by
  induction es with
  | nil => intro req _; rfl
  | cons e rest ih =>
    intro req hf
    cases hres : (matchStringR d req h e).1 with
    | bool b =>
      cases b
      · have hsnd : (matchStringR d req h e).2 = req :=
          matchStringR_snd_of_false d req h e (by rw [hres]; rfl)
        simp only [mapperMatchArr, hres, MRes.toBool, Bool.false_eq_true, if_false] at hf ⊢
        rw [hsnd] at hf ⊢
        exact ih _ hf
      · simp [mapperMatchArr, hres, MRes.toBool] at hf
    | pmap p =>
      simp [mapperMatchArr, hres, MRes.toBool] at hf

theorem mapperMatch_fst (d : String → Option String) (m : Mapper) (req : Request)
    (h : Bool) : (mapperMatch d m req h).1 = (mapperMatch d m (mkReq req.url) h).1 := by
  obtain ⟨me, ms, mf, mp⟩ := m
  cases me with
  | noExpr => rfl
  | str s => exact matchStringR_fst d req h s
  | regex t => rfl
  | arr es => exact mapperMatchArr_fst d h es req

theorem mapperMatch_snd_of_false (d : String → Option String) (m : Mapper) (req : Request)
    (h : Bool) (hf : (mapperMatch d m req h).1.toBool = false) :
    (mapperMatch d m req h).2 = req := by
  obtain ⟨me, ms, mf, mp⟩ := m
  cases me with
  | noExpr => rfl
  | str s => exact matchStringR_snd_of_false d req h s hf
  | regex t => rfl
  | arr es => exact mapperMatchArr_snd_of_false d h es req hf

/-! ## Filter-chain lemmas -/

theorem chainFrom_complete_of (d : String → Option String) :
    ∀ (L : List Mapper) (i : Nat) (req : Request),
      (∀ m ∈ L, matchB d m req.url = false) →
        chainFrom d L i req = ChainOutcome.complete req := by
  intro L
  induction L with
  | nil => intro i req _; rfl
  | cons m rest ih =>
    intro i req hall
    have hm : matchB d m req.url = false := hall m (List.mem_cons_self m rest)
    have hfst : (mapperMatch d m req false).1.toBool = false := by
      rw [mapperMatch_fst]
      exact hm
    have hsnd := mapperMatch_snd_of_false d m req false hfst
    simp only [chainFrom, hfst, Bool.false_eq_true, if_false, hsnd]
    exact ih (i + 1) req fun m' hm' => hall m' (List.mem_cons_of_mem m hm')

theorem chainFrom_all_false_of_complete (d : String → Option String) :
    ∀ (L : List Mapper) (i : Nat) (req : Request) (r : Request),
      chainFrom d L i req = ChainOutcome.complete r →
        ∀ m ∈ L, matchB d m req.url = false := by
  intro L
  induction L with
  | nil => intro i req r _ m hm; simp at hm
  | cons m0 rest ih =>
    intro i req r hc m hm
    by_cases hfst : (mapperMatch d m0 req false).1.toBool = true
    · simp only [chainFrom, hfst, if_true] at hc
      exact ChainOutcome.noConfusion hc
    · have hfst' : (mapperMatch d m0 req false).1.toBool = false := by
        cases hx : (mapperMatch d m0 req false).1.toBool
        · rfl
        · exact absurd hx hfst
      have hsnd := mapperMatch_snd_of_false d m0 req false hfst'
      simp only [chainFrom, hfst', Bool.false_eq_true, if_false, hsnd] at hc
      rcases List.mem_cons.mp hm with he | hrest
      · subst he
        unfold matchB
        rw [← mapperMatch_fst]
        exact hfst'
      · exact ih (i + 1) req r hc m hrest

theorem chainFrom_handle (d : String → Option String) :
    ∀ (L : List Mapper) (i : Nat) (req : Request) (j : Nat) (r : Request) (n : Nat),
      chainFrom d L i req = ChainOutcome.handle j r n →
        n = j + 1 ∧ i ≤ j ∧
          (∃ m, L.get? (j - i) = some m ∧ matchB d m req.url = true) ∧
          (∀ k m, k < j - i → L.get? k = some m → matchB d m req.url = false) := by
  intro L
  induction L with
  | nil => intro i req j r n h; exact absurd h (by simp [chainFrom])
  | cons m0 rest ih =>
    intro i req j r n h
    by_cases hfst : (mapperMatch d m0 req false).1.toBool = true
    · simp only [chainFrom, hfst, if_true] at h
      injection h with h1 h2 h3
      subst h1
      subst h3
      refine ⟨rfl, Nat.le_refl i, ⟨m0, ?_, ?_⟩, ?_⟩
      · simp [Nat.sub_self]
      · unfold matchB
        rw [← mapperMatch_fst]
        exact hfst
      · intro k m hk _
        simp [Nat.sub_self] at hk
    · have hfst' : (mapperMatch d m0 req false).1.toBool = false := by
        cases hx : (mapperMatch d m0 req false).1.toBool
        · rfl
        · exact absurd hx hfst
      have hsnd := mapperMatch_snd_of_false d m0 req false hfst'
      simp only [chainFrom, hfst', Bool.false_eq_true, if_false, hsnd] at h
      obtain ⟨hn, hij, ⟨m1, hget1, hm1⟩, hlt⟩ := ih (i + 1) req j r n h
      refine ⟨hn, by omega, ⟨m1, ?_, hm1⟩, ?_⟩
      · rw [show j - i = (j - (i + 1)) + 1 from by omega]
        simpa using hget1
      · intro k m hk hget
        cases k with
        | zero =>
          have hm0 : m0 = m := by simpa using hget
          subst hm0
          unfold matchB
          rw [← mapperMatch_fst]
          exact hfst'
        | succ k =>
          exact hlt k m (by omega) (by simpa using hget)

theorem handlerScan_none_of (d : String → Option String) :
    ∀ (L : List Mapper) (i : Nat) (req : Request),
      (∀ m ∈ L, matchH d m req.url = false) → handlerScan d L i req = none := by
  intro L
  induction L with
  | nil => intro i req _; rfl
  | cons m rest ih =>
    intro i req hall
    have hm : matchH d m req.url = false := hall m (List.mem_cons_self m rest)
    have hfst : (mapperMatch d m req true).1.toBool = false := by
      rw [mapperMatch_fst]
      exact hm
    have hsnd := mapperMatch_snd_of_false d m req true hfst
    simp only [handlerScan, hfst, Bool.false_eq_true, if_false, hsnd]
    exact ih (i + 1) req fun m' hm' => hall m' (List.mem_cons_of_mem m hm')

/-- C3: filter chain stepping.  One next() call from position i either
reports completion (running the chain's completion callback, which is the
handler-dispatch-then-static-file fallback installed by requestHandler) -
and it does so exactly when no remaining filter matches the request - or
stops at the first matching rule at index j, leaving the chain at j + 1
(so the rule's handler must itself call next() again for the walk to
continue), having skipped exactly the non-matching rules before j. -/
theorem filterChain_step (d : String → Option String) (filters : List Mapper)
    (req : Request) (i : Nat) :
    (chainNext d filters i req = ChainOutcome.complete req ↔
      ∀ j m, i ≤ j → filters.get? j = some m → matchB d m req.url = false)
  ∧ (∀ j r n, chainNext d filters i req = ChainOutcome.handle j r n →
      n = j + 1 ∧ i ≤ j ∧
        (∃ m, filters.get? j = some m ∧ matchB d m req.url = true) ∧
        (∀ k m, i ≤ k → k < j → filters.get? k = some m →
          matchB d m req.url = false)) := by
  unfold chainNext
  constructor
  · constructor
    · intro hc j m hij hget
      have hget' : (filters.drop i).get? (j - i) = some m := by
        rw [List.get?_drop]
        rw [show i + (j - i) = j from by omega]
        exact hget
      exact chainFrom_all_false_of_complete d (filters.drop i) i req req hc m
        (List.get?_mem hget')
    · intro hall
      apply chainFrom_complete_of
      intro m hm
      obtain ⟨k, hk⟩ := List.mem_iff_get?.mp hm
      have hd := List.get?_drop filters i k
      rw [hk] at hd
      exact hall (i + k) m (Nat.le_add_right i k) hd.symm
  · intro j r n h
    obtain ⟨hn, hij, ⟨m1, hget1, hm1⟩, hlt⟩ :=
      chainFrom_handle d (filters.drop i) i req j r n h
    refine ⟨hn, hij, ⟨m1, ?_, hm1⟩, ?_⟩
    · rw [List.get?_drop] at hget1
      rw [show i + (j - i) = j from by omega] at hget1
      exact hget1
    · intro k m hik hkj hget
      apply hlt (k - i) m (by omega)
      rw [List.get?_drop]
      rw [show i + (k - i) = k from by omega]
      exact hget

/-- C3 witness: on the registry [/x, /b] with request /b, one next() call
from index 0 skips the non-matching /x and stops at index 1 with the chain
positioned at 2. -/
theorem filterChain_step_witness :
    2 = 1 + 1 ∧ 0 ≤ 1 ∧
      (∃ m, [({ expression := Expr.str "/x" } : Mapper),
          { expression := Expr.str "/b" }].get? 1 = some m ∧
        matchB decodeId m (mkReq "/b").url = true) ∧
      (∀ k m, 0 ≤ k → k < 1 →
        [({ expression := Expr.str "/x" } : Mapper),
          { expression := Expr.str "/b" }].get? k = some m →
        matchB decodeId m (mkReq "/b").url = false) :=
  (filterChain_step decodeId
      [{ expression := Expr.str "/x" }, { expression := Expr.str "/b" }]
      (mkReq "/b") 0).2 1 (mkReq "/b") 2 (by decide)

/-! ## Parameterized-expression lemmas -/

theorem parseUrlLoop_isSome (d : String → Option String) (urls : List String) (start : Nat) :
    ∀ (parts : List String) (i : Nat) (params0 : List (String × Option String)),
      (parseUrlLoop d urls start parts i params0).isSome = true ↔
        ∀ k part, parts.get? k = some part → ¬ charAt? part 0 = some ':' →
          urls.get? (i + k + start) = some part := by
  intro parts
  induction parts with
  | nil =>
    intro i params0
    constructor
    · intro _ k part hk _
      simp at hk
    · intro _
      simp [parseUrlLoop]
  | cons part0 rest ih =>
    intro i params0
    by_cases hc : charAt? part0 0 = some ':'
    · simp only [parseUrlLoop]
      rw [if_pos hc]
      rw [ih (i + 1) (setKey params0 (strDrop part0 1) (captureVal d (urls.get? (i + start))))]
      constructor
      · intro hall k part hk hnp
        cases k with
        | zero =>
          simp at hk
          subst hk
          exact absurd hc hnp
        | succ k =>
          have hx := hall k part (by simpa using hk) hnp
          rw [show i + (k + 1) + start = i + 1 + k + start from by omega]
          exact hx
      · intro hall k part hk hnp
        have hx := hall (k + 1) part (by simpa using hk) hnp
        rw [show i + 1 + k + start = i + (k + 1) + start from by omega]
        exact hx
    · simp only [parseUrlLoop]
      rw [if_neg hc]
      cases hu : urls.get? (i + start) with
      | none =>
        simp only []
        constructor
        · intro hfalse
          simp at hfalse
        · intro hall
          have hx := hall 0 part0 (by simp) hc
          rw [show i + 0 + start = i + start from by omega] at hx
          rw [hu] at hx
          cases hx
      | some u =>
        simp only []
        by_cases hpu : part0 = u
        · subst hpu
          rw [if_pos rfl]
          rw [ih (i + 1) params0]
          constructor
          · intro hall k part hk hnp
            cases k with
            | zero =>
              simp at hk
              subst hk
              rw [show i + 0 + start = i + start from by omega]
              exact hu
            | succ k =>
              have hx := hall k part (by simpa using hk) hnp
              rw [show i + (k + 1) + start = i + 1 + k + start from by omega]
              exact hx
          · intro hall k part hk hnp
            have hx := hall (k + 1) part (by simpa using hk) hnp
            rw [show i + 1 + k + start = i + (k + 1) + start from by omega]
            exact hx
        · rw [if_neg hpu]
          constructor
          · intro hfalse
            simp at hfalse
          · intro hall
            have hx := hall 0 part0 (by simp) hc
            rw [show i + 0 + start = i + start from by omega] at hx
            rw [hu] at hx
            injection hx with hx'
            exact (hpu hx'.symm).elim

theorem parseUrlLoop_lookup (d : String → Option String) (urls : List String) (start : Nat) :
    ∀ (parts : List String) (i : Nat) (params0 p : List (String × Option String)),
      parseUrlLoop d urls start parts i params0 = some p →
      ∀ name, lookup p name =
        match lastParamIdx name parts with
        | some j => some (captureVal d (urls.get? (i + j + start)))
        | none => lookup params0 name := by
  intro parts
  induction parts with
  | nil =>
    intro i params0 p h name
    simp [parseUrlLoop] at h
    subst h
    simp [lastParamIdx]
  | cons part0 rest ih =>
    intro i params0 p h name
    by_cases hc : charAt? part0 0 = some ':'
    · simp only [parseUrlLoop] at h
      rw [if_pos hc] at h
      have hrec := ih (i + 1) _ p h name
      cases hrest : lastParamIdx name rest with
      | some j =>
        have hlast : lastParamIdx name (part0 :: rest) = some (j + 1) := by
          simp [lastParamIdx, hrest]
        simp only [hlast]
        simp only [hrest] at hrec
        rw [hrec]
        rw [show i + 1 + j + start = i + (j + 1) + start from by omega]
      | none =>
        simp only [hrest] at hrec
        rw [lookup_setKey] at hrec
        by_cases hname : name = strDrop part0 1
        · have hlast : lastParamIdx name (part0 :: rest) = some 0 := by
            simp [lastParamIdx, hrest, hc, hname.symm]
          simp only [hlast]
          rw [hrec, if_pos hname]
          rw [show i + 0 + start = i + start from by omega]
        · have hlast : lastParamIdx name (part0 :: rest) = none := by
            have hcond : ¬ (charAt? part0 0 = some ':' ∧ strDrop part0 1 = name) := by
              intro hx
              exact hname hx.2.symm
            simp [lastParamIdx, hrest, hcond]
          simp only [hlast]
          rw [hrec, if_neg hname]
    · simp only [parseUrlLoop] at h
      rw [if_neg hc] at h
      cases hu : urls.get? (i + start) with
      | none =>
        rw [hu] at h
        simp only [] at h
        cases h
      | some u =>
        rw [hu] at h
        simp only [] at h
        by_cases hpu : part0 = u
        · rw [if_pos hpu] at h
          have hrec := ih (i + 1) params0 p h name
          have hcond : ¬ (charAt? part0 0 = some ':' ∧ strDrop part0 1 = name) := by
            intro hx
            exact hc hx.1
          cases hrest : lastParamIdx name rest with
          | some j =>
            have hlast : lastParamIdx name (part0 :: rest) = some (j + 1) := by
              simp [lastParamIdx, hrest]
            simp only [hlast]
            simp only [hrest] at hrec
            rw [hrec]
            rw [show i + 1 + j + start = i + (j + 1) + start from by omega]
          | none =>
            have hlast : lastParamIdx name (part0 :: rest) = none := by
              simp [lastParamIdx, hrest, hcond]
            simp only [hlast]
            simp only [hrest] at hrec
            exact hrec
        · rw [if_neg hpu] at h
          cases h

/-- C1 (amended): parameterized matching.  parseUrl succeeds exactly when
every literal segment of the expression has an equal aligned path segment
(the query string stripped from the path, the alignment shifted by one
when the expression has no leading separator); on success, each parameter
name maps to the URL-decoded aligned segment of its last occurrence
(decoding the empty string when the path is too short, and falling back to
the raw value when decoding throws).  Extra path segments beyond the
expression are ignored: no overall segment-count comparison is made, so a
longer path can still match. -/
theorem parseUrl_param_characterization (d : String → Option String) (E P : String) :
    ((parseUrl d E P).isSome = true ↔
      ∀ k part, (splitSlash E).get? k = some part → ¬ charAt? part 0 = some ':' →
        (splitSlash (stripQuery P)).get?
          (k + (if charAt? E 0 = some '/' then 0 else 1)) = some part)
  ∧ (∀ p, parseUrl d E P = some p →
      ∀ name, lookup p name =
        (lastParamIdx name (splitSlash E)).map fun j =>
          captureVal d ((splitSlash (stripQuery P)).get?
            (j + (if charAt? E 0 = some '/' then 0 else 1)))) := by
  constructor
  · unfold parseUrl
    rw [parseUrlLoop_isSome]
    simp only [Nat.zero_add]
  · intro p h name
    unfold parseUrl at h
    have hrec := parseUrlLoop_lookup d (splitSlash (stripQuery P))
      (if charAt? E 0 = some '/' then 0 else 1) (splitSlash E) 0 [] p h name
    cases hlast : lastParamIdx name (splitSlash E) with
    | none =>
      simp only [hlast] at hrec
      simp [hlast, hrec, lookup]
    | some j =>
      simp only [hlast] at hrec
      simp [hlast, hrec, Nat.zero_add]

/-- C1 counterexample: expression /home/:id (3 aligned segments) against
path /home/42/extra (4 segments) is a segment-count mismatch, yet match
does not return false: it returns the truthy params object for id. -/
theorem parseUrl_count_mismatch_still_matches :
    ((splitSlash "/home/:id").length +
        (if charAt? "/home/:id" 0 = some '/' then 0 else 1) ≠
      (splitSlash (stripQuery "/home/42/extra")).length)
    ∧ (matchStringR decodeId (mkReq "/home/42/extra") false "/home/:id").1 =
        MRes.pmap [("id", some "42")]
    ∧ MRes.toBool (matchStringR decodeId (mkReq "/home/42/extra") false "/home/:id").1
        = true := by
  decide

/-- C1 witness: instantiating the characterization at /home/:id against
/home/42 recovers the aligned literal segment. -/
theorem parseUrl_param_characterization_witness :
    (splitSlash (stripQuery "/home/42")).get?
      (1 + (if charAt? ("/home/:id" : String) 0 = some '/' then 0 else 1)) = some "home" :=
  (parseUrl_param_characterization decodeId "/home/:id" "/home/42").1.mp (by decide) 1 "home"
    (by decide) (by decide)

/-- C2: strict (handler) mode literal matching.  Whenever a literal
expression (no /: marker) matches in strict mode, the literal occurs in
the path at offset 0 or 1 and the character just after the occurrence is
end-of-string, a separator or the query marker; in particular /m does not
match /more/x but matches /m, /m/x and /m?x=1. -/
theorem matchString_strict_only_if (E P : String)
    (hE : (idxOf? "/:".data E.data).isNone = true) :
    ((matchStringR decodeId (mkReq P) true E).1.toBool = true →
      ∃ i, (i = 0 ∨ i = 1) ∧ E.data.isPrefixOf (P.data.drop i) = true ∧
        followOk P.data (i + E.data.length))
  ∧ (matchStringR decodeId (mkReq "/more/x") true "/m").1.toBool = false
  ∧ (matchStringR decodeId (mkReq "/m") true "/m").1.toBool = true
  ∧ (matchStringR decodeId (mkReq "/m/x") true "/m").1.toBool = true
  ∧ (matchStringR decodeId (mkReq "/m?x=1") true "/m").1.toBool = true := by
  refine ⟨?_, by decide, by decide, by decide, by decide⟩
  intro ht
  unfold matchStringR at ht
  rw [if_pos hE] at ht
  rw [if_pos rfl] at ht
  cases hidx : idxOf? E.data (mkReq P).url.data with
  | none =>
    rw [hidx] at ht
    simp only [] at ht
    simp [MRes.toBool] at ht
  | some idx =>
    rw [hidx] at ht
    simp only [] at ht
    by_cases hi : idx = 0 ∨ idx = 1
    · rw [if_pos hi] at ht
      simp only [MRes.toBool] at ht
      have hcond := of_decide_eq_true ht
      exact ⟨idx, hi, idxOf?_sound E.data (mkReq P).url.data idx hidx, hcond⟩
    · rw [if_neg hi] at ht
      simp [MRes.toBool] at ht

/-- C2 witness: the strict-mode facts instantiated at /m against /m/x. -/
theorem matchString_strict_witness :
    (matchStringR decodeId (mkReq "/m/x") true "/m").1.toBool = true :=
  (matchString_strict_only_if "/m" "/m/x" (by decide)).2.2.2.1

/-- C4: session lifecycle on init.  With a positive configured id length
and store timestamps that are positive (every timestamp the code itself
writes is a real clock value), a missing or wrong-length cookie takes the
create path: fresh id, response cookie set, brand-new session stamped now.
A well-formed cookie attaches the stored session with its timestamp
refreshed exactly when the entry exists and its last access is within the
timeout; otherwise the store entry is deleted and the create path runs. -/
theorem sessionInit_lifecycle (st : Settings) (now : Int) (freshId : String)
    (cookies : List (String × String)) (store : List (String × Session))
    (hlen : 0 < st.sessionLength)
    (hpos : ∀ sv s t, lookup cookies "_wsid" = some sv → lookup store sv = some s →
      s.lastAccessTime = some t → 0 < t) :
    ((∀ sv, lookup cookies "_wsid" = some sv → sv.length ≠ st.sessionLength) →
      (sessionInit st now freshId cookies store).sid = freshId ∧
      (sessionInit st now freshId cookies store).cookieSet = true ∧
      (sessionInit st now freshId cookies store).val =
        { lastAccessTime := some now, data := [] })
  ∧ (∀ sv, lookup cookies "_wsid" = some sv → sv.length = st.sessionLength →
      ((∀ s t, lookup store sv = some s → s.lastAccessTime = some t →
          now - t ≤ st.sessionTimeout →
          (sessionInit st now freshId cookies store).sid = sv ∧
          (sessionInit st now freshId cookies store).cookieSet = false ∧
          (sessionInit st now freshId cookies store).val =
            { lastAccessTime := some now, data := s.data } ∧
          lookup (sessionInit st now freshId cookies store).store sv =
            some { lastAccessTime := some now, data := s.data })
      ∧ ((lookup store sv = none ∨
            (∃ s, lookup store sv = some s ∧ s.lastAccessTime = none) ∨
            (∃ s t, lookup store sv = some s ∧ s.lastAccessTime = some t ∧
              st.sessionTimeout < now - t)) →
          (sessionInit st now freshId cookies store).sid = freshId ∧
          (sessionInit st now freshId cookies store).cookieSet = true ∧
          (sessionInit st now freshId cookies store).val =
            { lastAccessTime := some now, data := [] } ∧
          lookup (sessionInit st now freshId cookies store).store sv = none))) := by
  constructor
  · intro hwrong
    unfold sessionInit
    cases hcv : lookup cookies "_wsid" with
    | none => simp [sessionCreate]
    | some sv =>
      simp only []
      rw [if_pos (Or.inr (hwrong sv hcv))]
      simp [sessionCreate]
  · intro sv hcv hlen'
    have hnotempty : ¬ sv = "" := by
      intro he
      subst he
      rw [← hlen'] at hlen
      simp at hlen
    have hgood : ¬ (sv = "" ∨ sv.length ≠ st.sessionLength) := by
      simp [hnotempty, hlen']
    constructor
    · intro s t hs ht htime
      have htpos := hpos sv s t hcv hs ht
      have hget : MemoryStore.get store sv = (s, store) := by
        unfold MemoryStore.get
        rw [hs]
      have hvalid : isValidSession now st.sessionTimeout s = true := by
        unfold isValidSession
        rw [ht]
        simp only []
        rw [Bool.and_eq_true]
        exact ⟨decide_eq_true (by omega), decide_eq_true htime⟩
      unfold sessionInit
      rw [hcv]
      simp only []
      rw [if_neg hgood, hget]
      simp only []
      rw [if_pos hvalid]
      refine ⟨rfl, rfl, rfl, ?_⟩
      simp only []
      rw [lookup_setKey]
      simp
    · intro hstale
      unfold sessionInit
      rw [hcv]
      simp only []
      rw [if_neg hgood]
      rcases hstale with hnone | ⟨s, hs, hla⟩ | ⟨s, t, hs, hla, hexp⟩
      · have hget : MemoryStore.get store sv = (emptySession, setKey store sv emptySession) := by
          unfold MemoryStore.get
          rw [hnone]
        rw [hget]
        simp only []
        rw [if_neg (by simp [isValidSession, emptySession])]
        refine ⟨rfl, rfl, rfl, ?_⟩
        unfold sessionCreate MemoryStore.del
        simp only []
        rw [lookup_eraseKey]
        simp
      · have hget : MemoryStore.get store sv = (s, store) := by
          unfold MemoryStore.get
          rw [hs]
        have hvalid : isValidSession now st.sessionTimeout s = false := by
          unfold isValidSession
          rw [hla]
        rw [hget]
        simp only []
        rw [if_neg (by simp [hvalid])]
        refine ⟨rfl, rfl, rfl, ?_⟩
        unfold sessionCreate MemoryStore.del
        simp only []
        rw [lookup_eraseKey]
        simp
      · have hget : MemoryStore.get store sv = (s, store) := by
          unfold MemoryStore.get
          rw [hs]
        have hvalid : isValidSession now st.sessionTimeout s = false := by
          unfold isValidSession
          rw [hla]
          simp only []
          have hexp' : ¬ (now - t ≤ st.sessionTimeout) := by omega
          simp [hexp']
        rw [hget]
        simp only []
        rw [if_neg (by simp [hvalid])]
        refine ⟨rfl, rfl, rfl, ?_⟩
        unfold sessionCreate MemoryStore.del
        simp only []
        rw [lookup_eraseKey]
        simp

/-- C4 witness: a well-formed cookie and a fresh-enough stored session are
attached with the timestamp refreshed in place. -/
theorem sessionInit_lifecycle_witness :
    (sessionInit { sessionLength := 3, sessionTimeout := 100 } 120 "zzz"
        [("_wsid", "abc")] [("abc", { lastAccessTime := some 50, data := [] })]).sid
      = "abc" ∧
    (sessionInit { sessionLength := 3, sessionTimeout := 100 } 120 "zzz"
        [("_wsid", "abc")] [("abc", { lastAccessTime := some 50, data := [] })]).cookieSet
      = false ∧
    (sessionInit { sessionLength := 3, sessionTimeout := 100 } 120 "zzz"
        [("_wsid", "abc")] [("abc", { lastAccessTime := some 50, data := [] })]).val
      = { lastAccessTime := some 120, data := [] } ∧
    lookup (sessionInit { sessionLength := 3, sessionTimeout := 100 } 120 "zzz"
        [("_wsid", "abc")] [("abc", { lastAccessTime := some 50, data := [] })]).store "abc"
      = some { lastAccessTime := some 120, data := [] } :=
  ((sessionInit_lifecycle { sessionLength := 3, sessionTimeout := 100 } 120 "zzz"
      [("_wsid", "abc")] [("abc", { lastAccessTime := some 50, data := [] })]
      (by decide)
      (by
        intro sv s t h1 h2 h3
        simp [lookup] at h1
        subst h1
        simp [lookup] at h2
        subst h2
        simp at h3
        omega)).2 "abc" (by decide) (by decide)).1
    { lastAccessTime := some 50, data := [] } 50 (by decide) rfl (by decide)

/-- C5: the sweep's validity test is lastAccessTime && ((now - la) ||
0 <= 2 * timeout); the right operand of || is always true, so every entry
with a truthy timestamp survives.  Concretely: with timeout 10, an entry
last touched at 1 is still in the map when the sweep runs at time 1000,
even though 1000 - 1 far exceeds 2 * 10 - the claimed deletion never
happens. -/
theorem clearHandler_retains_expired_entry :
    (2 * 10 < (1000 : Int) - 1) ∧
    clearHandler 1000 10 [("sid1", { lastAccessTime := some 1, data := [] })] =
      [("sid1", { lastAccessTime := some 1, data := [] })] := by
  decide

/-- C7: conditional GET on an existing file.  With a real modification
time (after the 1 ms epoch sentinel used for a missing header), an
If-Modified-Since at or after mtime with caching enabled yields an empty
304; an earlier or missing header yields a 200 with the file content and
a Last-Modified header. -/
theorem handlePath_conditional (cache : Bool) (mtime : Int) (ims : Option Int)
    (content : String) (hmt : 1 < mtime) :
    (∀ t, ims = some t → mtime ≤ t → cache = true →
      handlePathFile cache mtime ims content =
        { status := 304, body := none, lastModified := none })
  ∧ (∀ t, ims = some t → t < mtime →
      handlePathFile cache mtime ims content =
        { status := 200, body := some content, lastModified := some mtime })
  ∧ (ims = none →
      handlePathFile cache mtime ims content =
        { status := 200, body := some content, lastModified := some mtime }) := by
  refine ⟨?_, ?_, ?_⟩
  · intro t hi hle hc
    subst hi
    subst hc
    unfold handlePathFile
    simp [hle]
  · intro t hi hlt
    subst hi
    unfold handlePathFile
    have hn : ¬ (mtime ≤ t) := by omega
    simp [hn]
  · intro hi
    subst hi
    unfold handlePathFile
    have hn : ¬ (mtime ≤ (1 : Int)) := by omega
    simp [hn]

/-- C7 witness: a 304 for a cached, unmodified file. -/
theorem handlePath_conditional_witness :
    (1 : Int) < 5 ∧
    handlePathFile true 5 (some 7) "c" =
      { status := 304, body := none, lastModified := none } :=
  ⟨by decide, (handlePath_conditional true 5 (some 7) "c" (by decide)).1 7 rfl (by decide) rfl⟩

/-- C8: lenient body parse.  For a rule in json post mode whose body fails
to decode, the caught parse error degrades to an empty object attached as
req.body, and the pipeline still proceeds to the session stage and handler. -/
theorem parseBody_lenient (jsonParse : String → Option JVal)
    (qsParse : String → List (String × String)) (data : String)
    (hfail : jsonParse (if data = "" then "\x7b\x7d" else data) = none) :
    parseBody jsonParse qsParse (some PostMode.json) false data =
      { attached := some (JVal.obj []), proceeds := true } := by
  unfold parseBody
  simp [hfail]

/-- C8 witness: a parser that rejects the body still yields the empty
object and continues. -/
theorem parseBody_lenient_witness :
    parseBody (fun _ => none) (fun _ => []) (some PostMode.json) false "not json" =
      { attached := some (JVal.obj []), proceeds := true } :=
  parseBody_lenient (fun _ => none) (fun _ => []) "not json" rfl

/-- C10: MemoryStore.get never reports an absent session.  A lookup miss
inserts a fresh empty object into the map as a side effect and hands that
object to the callback; the object carries no last-access timestamp, so
the per-request validity check rejects it. -/
theorem memoryStore_get_total (store : List (String × Session)) (sid : String)
    (now timeout : Int) (h : lookup store sid = none) :
    (MemoryStore.get store sid).1 = emptySession ∧
    lookup (MemoryStore.get store sid).2 sid = some emptySession ∧
    isValidSession now timeout emptySession = false := by
  unfold MemoryStore.get
  rw [h]
  refine ⟨rfl, ?_, rfl⟩
  show lookup (setKey store sid emptySession) sid = some emptySession
  rw [lookup_setKey]
  simp

/-- C10 witness: the empty store at any id. -/
theorem memoryStore_get_total_witness :
    (MemoryStore.get [] "sid").1 = emptySession ∧
    lookup (MemoryStore.get [] "sid").2 "sid" = some emptySession ∧
    isValidSession 0 1440000 emptySession = false :=
  memoryStore_get_total [] "sid" 0 1440000 rfl

/-! ## Template-cache lemmas -/

theorem scanInclF_pend_sub (ce : Bool) (pool : List (String × String)) :
    ∀ (f : Nat) (l : List Char) (n : String),
      n ∈ (scanInclF ce pool f l).2 → n ∈ inclNamesF f l := by
  intro f
  induction f with
  | zero => intro l n h; simp [scanInclF] at h
  | succ f ih =>
    intro l n h
    cases l with
    | nil => simp [scanInclF] at h
    | cons c rest =>
      simp only [scanInclF] at h
      simp only [inclNamesF]
      cases htry : tryInclude (c :: rest) with
      | none =>
        rw [htry] at h
        simp only [] at h
        exact ih rest n h
      | some pr =>
        obtain ⟨nm, r⟩ := pr
        rw [htry] at h
        simp only [] at h
        rw [List.mem_append] at h
        rcases h with h1 | h2
        · by_cases hcache : ce = true ∧ ¬ (lookup pool nm).getD "" = ""
          · rw [if_pos hcache] at h1
            simp at h1
          · rw [if_neg hcache] at h1
            simp at h1
            subst h1
            exact List.mem_cons_self _ _
        · exact List.mem_cons_of_mem _ (ih r.val n h2)

theorem inclNamesF_covered (ce : Bool) (pool : List (String × String)) :
    ∀ (f : Nat) (l : List Char) (n : String),
      n ∈ inclNamesF f l →
        n ∈ (scanInclF ce pool f l).2 ∨ (ce = true ∧ ¬ (lookup pool n).getD "" = "") := by
  intro f
  induction f with
  | zero => intro l n h; simp [inclNamesF] at h
  | succ f ih =>
    intro l n h
    cases l with
    | nil => simp [inclNamesF] at h
    | cons c rest =>
      simp only [inclNamesF] at h
      simp only [scanInclF]
      cases htry : tryInclude (c :: rest) with
      | none =>
        rw [htry] at h
        simp only [] at h
        simp only []
        exact ih rest n h
      | some pr =>
        obtain ⟨nm, r⟩ := pr
        rw [htry] at h
        simp only [] at h
        simp only []
        rw [List.mem_cons] at h
        rcases h with h1 | h2
        · subst h1
          by_cases hcache : ce = true ∧ ¬ (lookup pool n).getD "" = ""
          · exact Or.inr hcache
          · refine Or.inl ?_
            rw [if_neg hcache]
            simp
        · rcases ih r.val n h2 with hp | hc
          · refine Or.inl ?_
            rw [List.mem_append]
            exact Or.inr hp
          · exact Or.inr hc

theorem scanInclF_pend_nil (pool : List (String × String)) :
    ∀ (f : Nat) (l : List Char),
      (∀ n ∈ inclNamesF f l, ¬ (lookup pool n).getD "" = "") →
        (scanInclF true pool f l).2 = [] := by
  intro f
  induction f with
  | zero => intro l _; simp [scanInclF]
  | succ f ih =>
    intro l hall
    cases l with
    | nil => simp [scanInclF]
    | cons c rest =>
      simp only [scanInclF]
      cases htry : tryInclude (c :: rest) with
      | none =>
        simp only []
        apply ih
        intro n hn
        apply hall
        simp only [inclNamesF, htry]
        exact hn
      | some pr =>
        obtain ⟨nm, r⟩ := pr
        simp only []
        have hnm : ¬ (lookup pool nm).getD "" = "" := by
          apply hall
          simp only [inclNamesF, htry]
          exact List.mem_cons_self _ _
        rw [if_pos (by simp [hnm])]
        rw [List.nil_append]
        apply ih
        intro n hn
        apply hall
        simp only [inclNamesF, htry]
        exact List.mem_cons_of_mem _ hn

theorem scanInclF_no_names (ce : Bool) (pool : List (String × String)) :
    ∀ (f : Nat) (l : List Char), l.length ≤ f → inclNamesF f l = [] →
      (scanInclF ce pool f l).1 = l ∧ (scanInclF ce pool f l).2 = [] := by
  intro f
  induction f with
  | zero =>
    intro l hle _
    have : l = [] := List.eq_nil_of_length_eq_zero (Nat.le_zero.mp hle)
    subst this
    simp [scanInclF]
  | succ f ih =>
    intro l hle hnil
    cases l with
    | nil => simp [scanInclF]
    | cons c rest =>
      simp only [inclNamesF] at hnil
      simp only [scanInclF]
      cases htry : tryInclude (c :: rest) with
      | none =>
        rw [htry] at hnil
        simp only [] at hnil
        simp only []
        have hle' : rest.length ≤ f := by
          simp only [List.length_cons] at hle
          omega
        have hrest := ih rest hle' hnil
        simp [hrest.1, hrest.2]
      | some pr =>
        obtain ⟨nm, r⟩ := pr
        rw [htry] at hnil
        simp only [] at hnil
        cases hnil

theorem lookup_applyPending_not_mem (fs : String → Option String) :
    ∀ (ns : List String) (pool : List (String × String)) (k : String),
      ¬ k ∈ ns → lookup (applyPending fs pool ns) k = lookup pool k := by
  intro ns
  induction ns with
  | nil => intro pool k _; rfl
  | cons n rest ih =>
    intro pool k hnot
    have hkn : ¬ k = n := fun he => hnot (he ▸ List.mem_cons_self n rest)
    have hkrest : ¬ k ∈ rest := fun hm => hnot (List.mem_cons_of_mem n hm)
    simp only [applyPending]
    cases hfn : fs n with
    | none =>
      simp only []
      exact ih pool k hkrest
    | some c =>
      simp only []
      rw [ih _ k hkrest, lookup_setKey, if_neg hkn]

theorem lookup_applyPending_mem (fs : String → Option String) :
    ∀ (ns : List String) (pool : List (String × String)) (k c : String),
      fs k = some c → k ∈ ns →
        lookup (applyPending fs pool ns) k = some c := by
  intro ns
  induction ns with
  | nil => intro pool k c _ hm; simp at hm
  | cons n rest ih =>
    intro pool k c hfk hmem
    simp only [applyPending]
    by_cases hkn : k = n
    · subst hkn
      rw [hfk]
      simp only []
      by_cases hmem' : k ∈ rest
      · exact ih _ k c hfk hmem'
      · rw [lookup_applyPending_not_mem fs rest _ k hmem', lookup_setKey, if_pos rfl]
    · have hmem' : k ∈ rest := by
        rcases List.mem_cons.mp hmem with he | hm
        · exact absurd he hkn
        · exact hm
      cases hfn : fs n with
      | none =>
        simp only []
        exact ih pool k c hfk hmem'
      | some c' =>
        simp only []
        exact ih _ k c hfk hmem'

theorem stepRender_stable (engineOut : String → String) (fs : String → Option String)
    (pool : List (String × String)) (T t0 : String)
    (hT : lookup pool T = some t0) (ht0 : ¬ t0 = "")
    (hincl : ∀ n ∈ inclNames t0.data, ¬ (lookup pool n).getD "" = "") :
    stepRender engineOut fs true pool T =
      { tmpl := String.mk (scanIncl true pool t0.data).1,
        out := engineOut (String.mk (scanIncl true pool t0.data).1),
        pool := pool, reads := 0 } := by
  have hgf : getFile fs true pool T = (t0, pool, 0) := by
    unfold getFile
    have hcond : ¬ (lookup pool T).getD "" = "" := by
      rw [hT]
      exact ht0
    rw [if_pos ⟨rfl, hcond⟩, hT]
    rfl
  have hpend : (scanIncl true pool t0.data).2 = [] :=
    scanInclF_pend_nil pool t0.data.length t0.data hincl
  unfold stepRender getTemplate
  rw [hgf]
  simp only []
  rw [hpend]
  rfl

/-- C6 (amended): template render stabilization.  With template caching
enabled and an initially empty cache pool, for a template readable from
the filesystem with nonempty text (an empty cached string is falsy, so
the cache never hits on it and the file is re-read every render): when
the raw text has no include directives the second render performs no
filesystem read and its output is byte-identical to the first render's;
in general (every included file existing with nonempty content) the
second render performs no filesystem read, leaves the pool unchanged, and
the third render repeats the second byte for byte - but the first
render's output may differ from the second's, because substitution cannot
see the include reads it has only scheduled (the cache-priming quirk the
source itself notes). -/
theorem templateRender_stability (engineOut : String → String) (fs : String → Option String)
    (T text : String) (hT : fs T = some text) (htext : ¬ text = "") :
    ((inclNames text.data = [] →
        (stepRender engineOut fs true (stepRender engineOut fs true [] T).pool T).reads = 0 ∧
        (stepRender engineOut fs true (stepRender engineOut fs true [] T).pool T).out =
          (stepRender engineOut fs true [] T).out))
  ∧ ((∀ n ∈ inclNames text.data, ¬ (fs n).getD "" = "") →
      (stepRender engineOut fs true (stepRender engineOut fs true [] T).pool T).reads = 0 ∧
      (stepRender engineOut fs true (stepRender engineOut fs true [] T).pool T).pool =
        (stepRender engineOut fs true [] T).pool ∧
      (stepRender engineOut fs true
          (stepRender engineOut fs true (stepRender engineOut fs true [] T).pool T).pool
          T).out =
        (stepRender engineOut fs true (stepRender engineOut fs true [] T).pool T).out ∧
      (stepRender engineOut fs true
          (stepRender engineOut fs true (stepRender engineOut fs true [] T).pool T).pool
          T).reads = 0) := by
  have hgf1 : getFile fs true [] T = (text, [(T, text)], 1) := by
    unfold getFile
    rw [if_neg (by simp [lookup]), hT]
    rfl
  have hpool1 : (stepRender engineOut fs true [] T).pool =
      applyPending fs [(T, text)] (scanIncl true [(T, text)] text.data).2 := by
    unfold stepRender getTemplate
    rw [hgf1]
  constructor
  · intro hnil
    have hsc1 : (scanIncl true [(T, text)] text.data).1 = text.data ∧
        (scanIncl true [(T, text)] text.data).2 = [] :=
      scanInclF_no_names true [(T, text)] text.data.length text.data (Nat.le_refl _) hnil
    have hr1 : stepRender engineOut fs true [] T =
        { tmpl := text, out := engineOut text, pool := [(T, text)], reads := 1 } := by
      unfold stepRender getTemplate
      rw [hgf1]
      simp only []
      rw [hsc1.1, hsc1.2]
      rfl
    have hT2 : lookup [(T, text)] T = some text := by simp [lookup]
    have hincl2 : ∀ n ∈ inclNames text.data, ¬ (lookup [(T, text)] n).getD "" = "" := by
      rw [hnil]
      intro n hn
      simp at hn
    have hr2 := stepRender_stable engineOut fs [(T, text)] T text hT2 htext hincl2
    have hmkdata : String.mk text.data = text := rfl
    rw [hr1]
    simp only []
    rw [hr2]
    simp [hsc1.1, hmkdata]
  · intro hfs
    have hTP1 : lookup (stepRender engineOut fs true [] T).pool T = some text := by
      rw [hpool1]
      by_cases hTmem : T ∈ (scanIncl true [(T, text)] text.data).2
      · exact lookup_applyPending_mem fs _ [(T, text)] T text hT hTmem
      · rw [lookup_applyPending_not_mem fs _ [(T, text)] T hTmem]
        simp [lookup]
    have hinclP1 : ∀ n ∈ inclNames text.data,
        ¬ (lookup (stepRender engineOut fs true [] T).pool n).getD "" = "" := by
      intro n hn
      rw [hpool1]
      simp only [scanIncl]
      by_cases hmem : n ∈ (scanInclF true [(T, text)] text.data.length text.data).2
      · cases hfn : fs n with
        | none => exact absurd (by rw [hfn]; rfl) (hfs n hn)
        | some c =>
          have hcne : ¬ c = "" := by
            have hx := hfs n hn
            rw [hfn] at hx
            simpa using hx
          rw [lookup_applyPending_mem fs _ [(T, text)] n c hfn hmem]
          exact hcne
      · rw [lookup_applyPending_not_mem fs _ [(T, text)] n hmem]
        rcases inclNamesF_covered true [(T, text)] text.data.length text.data n hn with hp | hc
        · exact absurd hp hmem
        · exact hc.2
    have hr2 := stepRender_stable engineOut fs (stepRender engineOut fs true [] T).pool T text
      hTP1 htext hinclP1
    refine ⟨?_, ?_, ?_, ?_⟩
    · rw [hr2]
    · rw [hr2]
    · rw [hr2]
      simp only []
      rw [hr2]
    · rw [hr2]
      simp only []
      rw [hr2]

/-- C6 counterexample: on the filesystem fs0 (template t includes file i)
with template caching enabled, the second render of t performs no
filesystem read, as the claim demands, but its output AXB differs from the
first render's AB: the first substitution ran before the include read it
scheduled had populated the cache, so render is not idempotent from the
first call. -/
theorem templateRender_not_idempotent :
    (stepRender id fs0 true (stepRender id fs0 true [] "t").pool "t").reads = 0 ∧
    (stepRender id fs0 true [] "t").out = "AB" ∧
    (stepRender id fs0 true (stepRender id fs0 true [] "t").pool "t").out = "AXB" ∧
    ¬ (stepRender id fs0 true (stepRender id fs0 true [] "t").pool "t").out =
        (stepRender id fs0 true [] "t").out := by
  decide

/-- C6 witness: the stabilization theorem instantiated on fs0, whose
template text and only include file are both nonempty. -/
theorem templateRender_stability_witness :
    (stepRender id fs0 true (stepRender id fs0 true [] "t").pool "t").reads = 0 ∧
    (stepRender id fs0 true (stepRender id fs0 true [] "t").pool "t").pool =
      (stepRender id fs0 true [] "t").pool ∧
    (stepRender id fs0 true
        (stepRender id fs0 true (stepRender id fs0 true [] "t").pool "t").pool "t").out =
      (stepRender id fs0 true (stepRender id fs0 true [] "t").pool "t").out ∧
    (stepRender id fs0 true
        (stepRender id fs0 true (stepRender id fs0 true [] "t").pool "t").pool "t").reads
      = 0 :=
  (templateRender_stability id fs0 "t" "A<!--#include=\"i\"-->B" rfl (by decide)).2
    (by decide)

/-- C9: 404 fallback.  For a request matched by no filter and no handler
whose query-stripped path stats to nothing on disk, requestHandler writes
a 404 whose body is the rendered custom error template when the "404"
setting is nonempty, and the literal "File not found!" otherwise. -/
theorem handleRequest_404_fallback (d : String → Option String)
    (engineOut : String → String) (fs : String → Option String)
    (stat : String → Option StatKind) (st : Settings)
    (pool : List (String × String)) (filters handlers : List Mapper) (req : Request)
    (hf : ∀ m ∈ filters, matchB d m req.url = false)
    (hh : ∀ m ∈ handlers, matchH d m req.url = false)
    (hs : stat (stripQuery req.url) = none) :
    handleRequest d engineOut fs stat st pool filters handlers req =
      ReqOutcome.served 404
        (if st.notFound = "" then "File not found!"
         else (stepRender engineOut fs st.templateCache pool st.notFound).out) := by
  have hchain : chainNext d filters 0 req = ChainOutcome.complete req := by
    unfold chainNext
    rw [List.drop_zero]
    exact chainFrom_complete_of d filters 0 req hf
  have hscan : handlerScan d handlers 0 req = none :=
    handlerScan_none_of d handlers 0 req hh
  unfold handleRequest
  rw [hchain]
  simp only []
  rw [hscan]
  simp only []
  rw [hs]
  simp only []
  unfold write404body
  rfl

/-- C9 witness: empty registries, empty disk, default settings: the body
is the literal fallback text. -/
theorem handleRequest_404_fallback_witness :
    handleRequest decodeId id (fun _ => none) (fun _ => none) {} [] [] []
        (mkReq "/nothing") =
      ReqOutcome.served 404
        (if ({} : Settings).notFound = "" then "File not found!"
         else (stepRender id (fun _ => none) ({} : Settings).templateCache []
            ({} : Settings).notFound).out) :=
  handleRequest_404_fallback decodeId id (fun _ => none) (fun _ => none) {} [] [] []
    (mkReq "/nothing") (by simp) (by simp) rfl

end Websvr
